import Mathlib

/-
Verification of the rehearsa restore-rehearsal engine against its
natural-language specification.

The development is a shallow embedding of the Rust sources:
  src/history.rs       - RunRecord, content hashing, integrity validation,
                         regression analysis
  src/policy.rs        - StackPolicy
  src/baseline.rs      - StackBaseline, compare_to_baseline
  src/engine/graph.rs  - topological_sort
  src/engine/stack.rs  - wait_and_score, per-service scoring, confidence and
                         risk aggregation, policy enforcement, exit logic
  src/main.rs          - process exit-code mapping
  src/daemon.rs        - cron scheduler state machine
  src/docker/compose.rs - composition-file parser

External crates (serde_json serialization, the sha2 SHA-256 digest, the
container runtime, the filesystem) are modelled as explicit parameters or
explicit input data: serialization and digesting are opaque function
parameters, the history directory is an optional association list of
file names to parsed records, and the container runtime is an observation
trace from poll ticks to container states.  Machine integers are modelled
as Nat / Int; the claims under check never exercise integer wrap-around,
and Rust signed division (which truncates toward zero) is rendered as
Int.tdiv.  Rust code that can panic (division by zero) is modelled with
Option, a panic being none.
-/

-- ======================================================
-- src/history.rs : RunRecord and content hashing
-- ======================================================

/-- RunRecord from src/history.rs (struct RunRecord).  The services
HashMap is modelled as an association list. -/
structure RunRecord where
  stack : String
  timestamp : String
  duration_seconds : Nat
  readiness : Option Nat
  confidence : Nat
  risk : String
  exit_code : Int
  services : List (String × Nat)
  hash : Option String
deriving DecidableEq

/-- The record with its hash field cleared (history.rs compute_hash does
temp.hash = None before serializing). -/
def clearHash (r : RunRecord) : RunRecord := { r with hash := none }

/-- compute_hash from src/history.rs: serialize the record with the hash
field cleared and digest the result.  serde_json::to_string and the sha2
SHA-256 hex digest are external crates, passed in as the opaque
parameters serializeFn and digestFn. -/
def compute_hash (serializeFn : RunRecord → String) (digestFn : String → String)
    (r : RunRecord) : String :=
  digestFn (serializeFn (clearHash r))

/-- persist from src/history.rs, restricted to the record it writes: the
stored record is the input record with hash set to the computed hash.
(The filesystem write itself is I/O and not modelled.) -/
def persistRecord (serializeFn : RunRecord → String) (digestFn : String → String)
    (r : RunRecord) : RunRecord :=
  { r with hash := some (compute_hash serializeFn digestFn r) }

-- ======================================================
-- src/history.rs : integrity validation
-- ======================================================

/-- Byte order on the characters of two strings: the lexicographic order
used by Rust when Vec of PathBuf is sorted (entries.sort() in
validate_stack_integrity).  The history file names are ASCII timestamps,
for which character order and byte order agree. -/
def lexLe : List Char → List Char → Bool
  | [], _ => true
  | _ :: _, [] => false
  | a :: as, b :: bs =>
    if a.toNat < b.toNat then true
    else if b.toNat < a.toNat then false
    else lexLe as bs

/-- String comparison via lexLe on the underlying character lists. -/
def strLe (a b : String) : Bool := lexLe a.data b.data

/-- Ordering of (file name, record) directory entries by file name,
as entries.sort() orders paths inside one directory. -/
def entryLe {α : Type} (a b : String × α) : Prop := strLe a.1 b.1 = true

instance {α : Type} : DecidableRel (entryLe (α := α)) := fun a b => by
  unfold entryLe; infer_instance

/-- Directory listing in sorted file-name order (entries.sort() in
src/history.rs validate_stack_integrity). -/
def sortEntries (entries : List (String × RunRecord)) : List (String × RunRecord) :=
  List.insertionSort entryLe entries

/-- One stored record passes the integrity check when it has no hash field
or its stored hash equals the recomputed hash (history.rs lines 73-81). -/
def hashOkB (serializeFn : RunRecord → String) (digestFn : String → String)
    (r : RunRecord) : Bool :=
  match r.hash with
  | none => true
  | some stored => compute_hash serializeFn digestFn r == stored

/-- The per-file loop of validate_stack_integrity: parse each file, and if
it carries a hash, fail on the first one whose recomputed hash differs. -/
def scanIntegrity (serializeFn : RunRecord → String) (digestFn : String → String) :
    List (String × RunRecord) → Except String Unit
  | [] => Except.ok ()
  | (fname, r) :: rest =>
    match r.hash with
    | some stored =>
      if compute_hash serializeFn digestFn r = stored then
        scanIntegrity serializeFn digestFn rest
      else
        Except.error ("Integrity violation detected in " ++ fname)
    | none => scanIntegrity serializeFn digestFn rest

/-- validate_stack_integrity from src/history.rs.  The stack history
directory is modelled as an optional association list of file name to
parsed record: none models a missing directory (early Ok return), and
entries are re-hashed in sorted file-name order. -/
def validate_stack_integrity (serializeFn : RunRecord → String)
    (digestFn : String → String)
    (dir : Option (List (String × RunRecord))) : Except String Unit :=
  match dir with
  | none => Except.ok ()
  | some entries => scanIntegrity serializeFn digestFn (sortEntries entries)

-- ======================================================
-- src/engine/stack.rs : integrity gate runs before the lock
-- ======================================================

/-- The observable prelude actions of test_stack (src/engine/stack.rs
lines 82-89): the strict-integrity gate, then the per-stack lock. -/
inductive RunStep where
  | integrityCheck
  | lockAcquire
deriving DecidableEq

/-- The prelude of test_stack: when strict_integrity is set the integrity
check runs first and an integrity error aborts (with that error) before
StackLock::acquire; otherwise the lock is taken directly.  Returns the
performed steps and the fatal error, if any. -/
def test_stack_prelude (strict_integrity : Bool)
    (integrity : Except String Unit) : List RunStep × Option String :=
  if strict_integrity then
    match integrity with
    | Except.error e => ([RunStep.integrityCheck], some e)
    | Except.ok _ => ([RunStep.integrityCheck, RunStep.lockAcquire], none)
  else
    ([RunStep.lockAcquire], none)

-- ======================================================
-- src/history.rs : regression analysis
-- ======================================================

/-- RegressionAnalysis from src/history.rs. -/
structure RegressionAnalysis where
  previous_confidence : Option Nat
  confidence_delta : Option Int
  confidence_trend : Option String
  previous_readiness : Option Nat
  readiness_delta : Option Int
  readiness_trend : Option String
  duration_delta_percent : Option Int
deriving DecidableEq

/-- analyze_regression from src/history.rs.  The load_latest(stack) call
is modelled by the previous argument (the latest stored record, if any).
Rust i64 division truncates toward zero, hence Int.tdiv. -/
def analyze_regression (previous : Option RunRecord) (current_confidence : Nat)
    (current_readiness : Option Nat) (current_duration : Nat) : RegressionAnalysis :=
  match previous with
  | some prev =>
    let confidence_delta : Int := (current_confidence : Int) - (prev.confidence : Int)
    let confidence_trend : String :=
      if confidence_delta > 0 then "UP"
      else if confidence_delta < 0 then "DOWN"
      else "SAME"
    let readiness_delta : Option Int :=
      match current_readiness, prev.readiness with
      | some c, some p => some ((c : Int) - (p : Int))
      | _, _ => none
    let readiness_trend : Option String :=
      readiness_delta.map (fun d =>
        if d > 0 then "UP" else if d < 0 then "DOWN" else "SAME")
    let duration_delta_percent : Option Int :=
      if 0 < prev.duration_seconds then
        some (Int.tdiv (((current_duration : Int) - (prev.duration_seconds : Int)) * 100)
          (prev.duration_seconds : Int))
      else
        none
    { previous_confidence := some prev.confidence
      confidence_delta := some confidence_delta
      confidence_trend := some confidence_trend
      previous_readiness := prev.readiness
      readiness_delta := readiness_delta
      readiness_trend := readiness_trend
      duration_delta_percent := duration_delta_percent }
  | none =>
    { previous_confidence := none
      confidence_delta := none
      confidence_trend := none
      previous_readiness := none
      readiness_delta := none
      readiness_trend := none
      duration_delta_percent := none }

-- ======================================================
-- src/policy.rs : StackPolicy
-- ======================================================

/-- StackPolicy from src/policy.rs. -/
structure StackPolicy where
  min_confidence : Option Nat
  min_readiness : Option Nat
  block_on_regression : Option Bool
  fail_on_new_service_failure : Option Bool
  fail_on_duration_spike : Option Bool
  duration_spike_percent : Option Nat
  fail_on_baseline_drift : Option Bool
deriving DecidableEq

/-- The all-unset policy, for building concrete policies. -/
def emptyPolicy : StackPolicy :=
  { min_confidence := none
    min_readiness := none
    block_on_regression := none
    fail_on_new_service_failure := none
    fail_on_duration_spike := none
    duration_spike_percent := none
    fail_on_baseline_drift := none }

-- ======================================================
-- src/baseline.rs : StackBaseline and drift comparison
-- ======================================================

/-- StackBaseline from src/baseline.rs. -/
structure StackBaseline where
  stack : String
  expected_services : List String
  expected_confidence : Nat
  expected_readiness : Option Nat
  expected_duration : Nat
  service_scores : List (String × Nat)
  pinned_at : Option String
  promoted_at : Option String
deriving DecidableEq

/-- BaselineDrift from src/baseline.rs. -/
structure BaselineDrift where
  new_services : List String
  missing_services : List String
  confidence_delta : Int
  readiness_delta : Option Int
  duration_delta_percent : Option Int
deriving DecidableEq

/-- compare_to_baseline from src/baseline.rs.  The two HashSet
differences are modelled as filters over the key lists; a HashSet
difference determines only a set (its Vec iteration order is arbitrary),
and the claims about it are set-membership claims. -/
def compare_to_baseline (baseline : StackBaseline)
    (current_services : List (String × Nat)) (current_confidence : Nat)
    (current_readiness : Option Nat) (current_duration : Nat) : BaselineDrift :=
  let current_keys := current_services.map Prod.fst
  let new_services := current_keys.filter (fun s => !baseline.expected_services.contains s)
  let missing_services := baseline.expected_services.filter (fun s => !current_keys.contains s)
  let confidence_delta : Int :=
    (current_confidence : Int) - (baseline.expected_confidence : Int)
  let readiness_delta : Option Int :=
    match current_readiness, baseline.expected_readiness with
    | some c, some e => some ((c : Int) - (e : Int))
    | _, _ => none
  let duration_delta_percent : Option Int :=
    if 0 < baseline.expected_duration then
      some (Int.tdiv (((current_duration : Int) - (baseline.expected_duration : Int)) * 100)
        (baseline.expected_duration : Int))
    else
      none
  { new_services := new_services
    missing_services := missing_services
    confidence_delta := confidence_delta
    readiness_delta := readiness_delta
    duration_delta_percent := duration_delta_percent }

/-- The drift-presence test of src/engine/stack.rs (lines 305-310): drift
is detected when either service set is non-empty or any delta
(absent deltas counting as zero) is non-zero. -/
def hasDrift (d : BaselineDrift) : Bool :=
  !d.new_services.isEmpty || !d.missing_services.isEmpty ||
    d.confidence_delta != 0 || d.readiness_delta.getD 0 != 0 ||
    d.duration_delta_percent.getD 0 != 0

-- ======================================================
-- src/engine/stack.rs : policy enforcement
-- ======================================================

/-- min_confidence rule (stack.rs lines 357-365). -/
def minConfidenceViolated (p : StackPolicy) (confidence : Nat) : Bool :=
  match p.min_confidence with
  | some m => confidence < m
  | none => false

/-- min_readiness rule (stack.rs lines 367-375). -/
def minReadinessViolated (p : StackPolicy) (readinessScore : Nat) : Bool :=
  match p.min_readiness with
  | some m => readinessScore < m
  | none => false

/-- block_on_regression rule (stack.rs lines 377-384). -/
def regressionViolated (p : StackPolicy) (regression : RegressionAnalysis) : Bool :=
  p.block_on_regression.getD false &&
    match regression.confidence_delta with
    | some delta => decide (delta < 0)
    | none => false

/-- fail_on_new_service_failure rule (stack.rs lines 386-396). -/
def newServiceFailureViolated (p : StackPolicy) (scores : List (String × Nat)) : Bool :=
  p.fail_on_new_service_failure.getD false && scores.any (fun q => q.2 == 0)

/-- fail_on_duration_spike rule (stack.rs lines 398-408): fires only when
the rule is enabled, a duration delta is present, and it exceeds the
threshold (default 50). -/
def durationSpikeViolated (p : StackPolicy) (regression : RegressionAnalysis) : Bool :=
  p.fail_on_duration_spike.getD false &&
    match regression.duration_delta_percent with
    | some spike => decide (spike > (p.duration_spike_percent.getD 50 : Int))
    | none => false

/-- fail_on_baseline_drift enforcement (stack.rs lines 413-418). -/
def baselineDriftViolated (p : StackPolicy) (drift_detected : Bool) : Bool :=
  p.fail_on_baseline_drift.getD false && drift_detected

/-- The policy enforcement block of test_stack (stack.rs lines 353-419):
with no stored policy nothing fires; otherwise policy_violation is the
disjunction of the six rules. -/
def evaluatePolicy (policyOpt : Option StackPolicy) (confidence readinessScore : Nat)
    (regression : RegressionAnalysis) (scores : List (String × Nat))
    (drift_detected : Bool) : Bool :=
  match policyOpt with
  | none => false
  | some p =>
    minConfidenceViolated p confidence || minReadinessViolated p readinessScore ||
      regressionViolated p regression || newServiceFailureViolated p scores ||
      durationSpikeViolated p regression || baselineDriftViolated p drift_detected

-- ======================================================
-- src/engine/stack.rs and src/main.rs : risk band and exit codes
-- ======================================================

/-- The risk banding match of stack.rs (lines 272-277). -/
def riskOf (confidence : Nat) : String :=
  if 90 ≤ confidence ∧ confidence ≤ 100 then "LOW"
  else if 70 ≤ confidence ∧ confidence ≤ 89 then "MODERATE"
  else if 40 ≤ confidence ∧ confidence ≤ 69 then "HIGH"
  else "CRITICAL"

/-- The exit_code stored in the persisted record (stack.rs lines
453-468): 4 on a policy violation, else 5 on drift when the stored
policy sets fail_on_baseline_drift, else banded by confidence. -/
def recordExitCode (policy_violation : Bool) (baseline_drift_detected : Bool)
    (policyOpt : Option StackPolicy) (confidence : Nat) : Nat :=
  if policy_violation then 4
  else if baseline_drift_detected &&
      (policyOpt.bind (fun p => p.fail_on_baseline_drift)).getD false then 5
  else if 70 ≤ confidence then 0
  else if 40 ≤ confidence then 2
  else 3

/-- The summary fields main.rs reads to pick the process exit code. -/
structure StackRunSummary where
  policy_violated : Bool
  baseline_drift : Bool
  confidence : Nat
deriving DecidableEq

/-- The process exit code chosen by main.rs (lines 385-401) from a
successful summary: 4 on violation, else 5 on any drift, else banded by
confidence with 0 as the fall-through. -/
def mainExitCode (policy_violated baseline_drift : Bool) (confidence : Nat) : Nat :=
  if policy_violated then 4
  else if baseline_drift then 5
  else if confidence < 40 then 3
  else if confidence < 70 then 2
  else 0

/-- The process exit code including the fatal path of main.rs (lines
403-414): a fatal executor error exits 1. -/
def mainExitOf (outcome : Except String StackRunSummary) : Nat :=
  match outcome with
  | Except.error _ => 1
  | Except.ok s => mainExitCode s.policy_violated s.baseline_drift s.confidence

-- ======================================================
-- src/engine/stack.rs : wait_and_score and per-service scoring
-- ======================================================

/-- A health status reported by the container runtime (bollard
HealthStatusEnum, as matched by wait_and_score). -/
inductive HealthObs where
  | healthy
  | unhealthy
  | otherHealth
deriving DecidableEq

/-- A container state observed at one poll of wait_and_score (bollard
ContainerStateStatusEnum plus the optional health block). -/
inductive StatusObs where
  | running (health : Option HealthObs)
  | exited
  | otherState
deriving DecidableEq

/-- The polling loop of wait_and_score (stack.rs lines 546-584), over an
observation trace obs mapping the elapsed second to the inspected state:
RUNNING and HEALTHY scores 100, RUNNING and UNHEALTHY scores 40, RUNNING
with no healthcheck configured scores 85, EXITED scores 0, anything else
polls again, and running out the timeout scores 0. -/
def waitLoop (obs : Nat → StatusObs) : Nat → Nat → Nat
  | 0, _ => 0
  | remaining + 1, elapsed =>
    match obs elapsed with
    | StatusObs.running (some HealthObs.healthy) => 100
    | StatusObs.running (some HealthObs.unhealthy) => 40
    | StatusObs.running (some HealthObs.otherHealth) => waitLoop obs remaining (elapsed + 1)
    | StatusObs.running none => 85
    | StatusObs.exited => 0
    | StatusObs.otherState => waitLoop obs remaining (elapsed + 1)

/-- wait_and_score from src/engine/stack.rs, starting at elapsed = 0. -/
def wait_and_score (obs : Nat → StatusObs) (timeout : Nat) : Nat :=
  waitLoop obs timeout 0

/-- Per-service score after fault injection (stack.rs lines 235-244): the
wait_and_score result, overridden to 0 when inject_failure names this
service. -/
def scoreService (inject_failure : Option String) (service_name : String)
    (obs : Nat → StatusObs) (timeout : Nat) : Nat :=
  let score := wait_and_score obs timeout
  if inject_failure = some service_name then 0 else score

/-- The confidence aggregation of stack.rs (lines 269-270):
total / service_scores.len().  In Rust this u32 division panics when no
service was scored; the panic is modelled as none. -/
def aggregateConfidence (scores : List (String × Nat)) : Option Nat :=
  if scores.length = 0 then none
  else some ((scores.map Prod.snd).sum / scores.length)

-- ======================================================
-- src/daemon.rs : the cron scheduler step
-- ======================================================

/-- The scheduler lookback window: 25 hours in seconds (daemon.rs
run_scheduler subtracts chrono Duration::hours(25)). -/
def schedLookback : Nat := 90000

/-- The most recent cron fire time at or before now (daemon.rs: iterate
fire times after now - 25h, keep those at most now, take the last).  The
cron schedule is modelled by its list of fire times (seconds); cron
iterates them in ascending order, so the last of the window is its
maximum. -/
def lastFire (fires : List Nat) (now : Nat) : Option Nat :=
  (fires.filter (fun t => now - schedLookback < t && t ≤ now)).max?

/-- An observable side effect of one scheduler evaluation for one watch:
persisting the last-run state, or dispatching a rehearsal task. -/
inductive SchedEffect where
  | writeState (t : Nat)
  | dispatch
deriving DecidableEq

/-- One scheduler evaluation for one watch (daemon.rs run_scheduler,
lines 578-635), as its list of effects in program order: no fire time in
the window means no effect; an already-fired slot (state at or past the
fire time) means no effect; a stale state with catch_up unset records
and persists the slot and skips the dispatch; otherwise the slot is
recorded and persisted and then the rehearsal dispatched. -/
def schedulerStep (catch_up : Bool) (fires : List Nat) (prevState : Option Nat)
    (now : Nat) : List SchedEffect :=
  match lastFire fires now with
  | none => []
  | some lf =>
    match prevState with
    | some prev =>
      if lf ≤ prev then []
      else if !catch_up then [SchedEffect.writeState lf]
      else [SchedEffect.writeState lf, SchedEffect.dispatch]
    | none => [SchedEffect.writeState lf, SchedEffect.dispatch]

-- ======================================================
-- src/engine/graph.rs : topological sort
-- ======================================================

/-- The cycle error message of graph.rs (line 29). -/
def cycleMsg (n : String) : String := "Circular dependency detected at " ++ n

/-- The mutable state of the depth-first walk in graph.rs: the visited
set, the current-path set temp, and the post-order result list.  The two
HashSets are modelled as lists used for membership. -/
structure DfsSt where
  visited : List String
  temp : List String
  result : List String
deriving DecidableEq

/-- services.get(node) of graph.rs: look a node up in the dependency
map, modelled as an association list (first binding wins, as HashMap
keys are unique). -/
def lookupDeps (services : List (String × List String)) (n : String) :
    Option (List String) :=
  (services.find? (fun p => p.1 == n)).map Prod.snd

/-- The dependency list a visit iterates for a node: the map entry, or
nothing for a node absent from the map (graph.rs lines 34-38). -/
def depsOf (services : List (String × List String)) (n : String) : List String :=
  (lookupDeps services n).getD []

/-- The edge relation of the dependency graph: d is a listed dependency
of n. -/
def depStep (services : List (String × List String)) (n d : String) : Prop :=
  d ∈ depsOf services n

/-- The recursive walk of graph.rs (visit, lines 17-45) over a worklist:
a visited node is skipped; a node already on the current path is the
cycle error; otherwise the node goes on the path, its dependencies are
walked, and the node then moves to visited and is pushed on the result.
The fuel argument only bounds the recursion depth; topological_sort
supplies a fuel for which it is never exhausted (none is never
returned), matching the terminating Rust recursion. -/
def visitMany (services : List (String × List String)) :
    Nat → List String → DfsSt → Option (Except String DfsSt)
  | 0, _, _ => none
  | _ + 1, [], st => some (Except.ok st)
  | fuel + 1, node :: rest, st =>
    if node ∈ st.visited then
      visitMany services fuel rest st
    else if node ∈ st.temp then
      some (Except.error (cycleMsg node))
    else
      match visitMany services fuel (depsOf services node)
          { st with temp := node :: st.temp } with
      | none => none
      | some (Except.error e) => some (Except.error e)
      | some (Except.ok st2) =>
        visitMany services fuel rest
          { visited := node :: st2.visited
            temp := st2.temp.erase node
            result := st2.result ++ [node] }

/-- Every name occurring in the dependency map: its keys and every
listed dependency.  Only these nodes are ever visited. -/
def graphNodes (services : List (String × List String)) : Finset String :=
  (services.map Prod.fst ++ (services.map Prod.snd).flatten).toFinset

/-- An upper bound on the length of any dependency list in the map. -/
def maxDepsLen (services : List (String × List String)) : Nat :=
  (services.map (fun p => p.2.length)).foldr max 0

/-- A recursion-depth budget sufficient for the whole walk (proved
below): the worklist length plus a per-node allowance for every distinct
name of the graph. -/
def graphFuel (services : List (String × List String)) : Nat :=
  services.length + (maxDepsLen services + 1) * (graphNodes services).card + 1

/-- topological_sort from src/engine/graph.rs: walk every key of the map
with empty state and return the post-order result, or the cycle error.
The keys of the HashMap are walked in association-list order (HashMap
iteration order is arbitrary; the properties proved below hold for every
order). -/
def topological_sort (services : List (String × List String)) :
    Option (Except String (List String)) :=
  match visitMany services (graphFuel services) (services.map Prod.fst)
      { visited := [], temp := [], result := [] } with
  | none => none
  | some (Except.error e) => some (Except.error e)
  | some (Except.ok st) => some (Except.ok st.result)

/-- The invariant of the depth-first walk state: the post-order result
has no duplicates, visited and result hold the same nodes, no node on
the current path is already in the result, and every completed node has
each of its dependencies completed before it. -/
def DfsInv (services : List (String × List String)) (st : DfsSt) : Prop :=
  st.result.Nodup ∧
  (∀ n, n ∈ st.visited ↔ n ∈ st.result) ∧
  (∀ n ∈ st.temp, n ∉ st.result) ∧
  (∀ n ∈ st.result, ∀ d ∈ depsOf services n, [d, n].Sublist st.result)

/-- The graph names not yet placed in visited or on the current path. -/
def remSet (services : List (String × List String)) (st : DfsSt) : Finset String :=
  (graphNodes services).filter (fun n => n ∉ st.visited ∧ n ∉ st.temp)

/-- The recursion-depth requirement of the walk from a given worklist
and state, used to show graphFuel is never exhausted. -/
def dfsFuelNeed (services : List (String × List String)) (todo : List String)
    (st : DfsSt) : Nat :=
  todo.length + (maxDepsLen services + 1) * (remSet services st).card

-- ======================================================
-- src/docker/compose.rs : the composition-file parser
-- ======================================================

/-- A parsed YAML value (serde_yaml::Value), as far as compose.rs
inspects it.  Numbers are modelled as integers (the composition files
the claims exercise carry no floats); mapping keys are YAML values,
looked at through as_str exactly as the source does. -/
inductive Yaml where
  | null
  | bool (b : Bool)
  | num (n : Int)
  | str (s : String)
  | seq (xs : List Yaml)
  | mapping (kvs : List (Yaml × Yaml))

/-- serde_yaml Value::as_str. -/
def Yaml.asStr : Yaml → Option String
  | Yaml.str s => some s
  | _ => none

/-- serde_yaml Mapping::get with a string key: the value of the first
binding whose key is that string. -/
def yget (kvs : List (Yaml × Yaml)) (key : String) : Option Yaml :=
  (kvs.find? (fun kv => kv.1.asStr == some key)).map Prod.snd

/-- HealthCheck from src/docker/compose.rs. -/
structure HealthCheck where
  test : Option (List String)
  interval : Option String
  timeout : Option String
  retries : Option Nat
deriving DecidableEq

/-- Service from src/docker/compose.rs. -/
structure Service where
  image : Option String
  environment : Option (List String)
  volumes : Option (List String)
  depends_on : Option (List String)
  command : Option (List String)
  healthcheck : Option HealthCheck
  ports : Option (List String)
  entrypoint : Option (List String)
  labels : Option (List (String × String))
deriving DecidableEq

/-- ComposeFile from src/docker/compose.rs: the services HashMap as an
association list. -/
structure ComposeFile where
  services : List (String × Service)

/-- value_to_string from compose.rs: strings, numbers and booleans
render to strings, everything else to None. -/
def value_to_string : Yaml → Option String
  | Yaml.str s => some s
  | Yaml.num n => some (toString n)
  | Yaml.bool b => some (toString b)
  | _ => none

/-- extract_string from compose.rs. -/
def extract_string (map : List (Yaml × Yaml)) (key : String) : Option String :=
  match yget map key with
  | some (Yaml.str s) => some s
  | _ => none

/-- extract_string_or_list from compose.rs. -/
def extract_string_or_list (map : List (Yaml × Yaml)) (key : String) :
    Option (List String) :=
  match yget map key with
  | none => none
  | some Yaml.null => none
  | some (Yaml.str s) => some [s]
  | some (Yaml.seq xs) =>
    let out := xs.filterMap value_to_string
    if out.isEmpty then none else some out
  | some _ => none

/-- The element translation of extract_string_list from compose.rs:
strings pass through; a source/target mapping renders source:target, or
target alone. -/
def volumeEntry (v : Yaml) : Option String :=
  match v with
  | Yaml.str s => some s
  | Yaml.mapping m =>
    let source := (yget m "source").bind Yaml.asStr
    let target := (yget m "target").bind Yaml.asStr
    match source, target with
    | some s, some t => some (s ++ ":" ++ t)
    | none, some t => some t
    | _, _ => none
  | _ => none

/-- extract_string_list from compose.rs (used for volumes). -/
def extract_string_list (map : List (Yaml × Yaml)) (key : String) :
    Option (List String) :=
  match yget map key with
  | some (Yaml.seq xs) =>
    let out := xs.filterMap volumeEntry
    if out.isEmpty then none else some out
  | _ => none

/-- One binding of a mapping-form environment block (compose.rs
extract_environment): a merge key is dropped, a non-string key is
dropped, a null value keeps the bare key, any other renderable value
becomes KEY=value. -/
def envEntry (kv : Yaml × Yaml) : Option String :=
  match kv.1.asStr with
  | some "<<" => none
  | none => none
  | some key =>
    match kv.2 with
    | Yaml.null => some key
    | other =>
      match value_to_string other with
      | some s => some (key ++ "=" ++ s)
      | none => none

/-- extract_environment from compose.rs. -/
def extract_environment (map : List (Yaml × Yaml)) : Option (List String) :=
  match yget map "environment" with
  | none => none
  | some Yaml.null => none
  | some (Yaml.seq xs) =>
    let out := xs.filterMap value_to_string
    if out.isEmpty then none else some out
  | some (Yaml.mapping m) =>
    let out := m.filterMap envEntry
    if out.isEmpty then none else some out
  | some _ => none

/-- extract_depends_on from compose.rs: a sequence of names, or the keys
of a mapping form. -/
def extract_depends_on (map : List (Yaml × Yaml)) : Option (List String) :=
  match yget map "depends_on" with
  | none => none
  | some Yaml.null => none
  | some (Yaml.seq xs) =>
    let out := xs.filterMap Yaml.asStr
    if out.isEmpty then none else some out
  | some (Yaml.mapping m) =>
    let out := m.filterMap (fun kv => kv.1.asStr)
    if out.isEmpty then none else some out
  | some _ => none

/-- extract_healthcheck from compose.rs: absent or non-mapping blocks
and disable: true yield none; test accepts a sequence of strings or one
string. -/
def extract_healthcheck (map : List (Yaml × Yaml)) : Option HealthCheck :=
  match yget map "healthcheck" with
  | some (Yaml.mapping hc) =>
    match yget hc "disable" with
    | some (Yaml.bool true) => none
    | _ =>
      let test :=
        match yget hc "test" with
        | some (Yaml.seq xs) =>
          let parts := xs.filterMap Yaml.asStr
          if parts.isEmpty then none else some parts
        | some (Yaml.str s) => some [s]
        | _ => none
      let interval := (yget hc "interval").bind Yaml.asStr
      let timeout := (yget hc "timeout").bind Yaml.asStr
      let retries :=
        match yget hc "retries" with
        | some (Yaml.num n) => if 0 ≤ n then some n.toNat else none
        | _ => none
      some { test := test, interval := interval, timeout := timeout, retries := retries }
  | _ => none

/-- One ports element (compose.rs extract_ports): strings and numbers
pass through; a published/target mapping renders published:target, or
target alone. -/
def portEntry (v : Yaml) : Option String :=
  match v with
  | Yaml.str s => some s
  | Yaml.num n => some (toString n)
  | Yaml.mapping m =>
    let published := (yget m "published").bind value_to_string
    let target := (yget m "target").bind value_to_string
    match published, target with
    | some p, some t => some (p ++ ":" ++ t)
    | none, some t => some t
    | _, _ => none
  | _ => none

/-- extract_ports from compose.rs. -/
def extract_ports (map : List (Yaml × Yaml)) : Option (List String) :=
  match yget map "ports" with
  | some (Yaml.seq xs) =>
    let out := xs.filterMap portEntry
    if out.isEmpty then none else some out
  | _ => none

/-- extract_labels from compose.rs: mapping form keeps string keys with
rendered (or empty) values; sequence form splits k=v entries and maps a
bare label to "true". -/
def extract_labels (map : List (Yaml × Yaml)) : Option (List (String × String)) :=
  match yget map "labels" with
  | none => none
  | some Yaml.null => none
  | some (Yaml.mapping m) =>
    let out := m.filterMap (fun kv =>
      match kv.1.asStr with
      | some key => some (key, (value_to_string kv.2).getD "")
      | none => none)
    if out.isEmpty then none else some out
  | some (Yaml.seq xs) =>
    let out := xs.filterMap (fun v =>
      match v.asStr with
      | some s =>
        match s.splitOn "=" with
        | k :: rest =>
          if rest.isEmpty then some (s, "true")
          else some (k, String.intercalate "=" rest)
        | [] => some (s, "true")
      | none => none)
    if out.isEmpty then none else some out
  | some _ => none

/-- HashMap::insert for the services map: replace any earlier binding of
the same name. -/
def servicesInsert (l : List (String × Service)) (name : String) (svc : Service) :
    List (String × Service) :=
  l.filter (fun p => !(p.1 == name)) ++ [(name, svc)]

/-- One iteration of the services loop of parse_compose: non-string
names and non-mapping values are skipped, anything else is extracted
field by field and inserted. -/
def parseServiceEntry (acc : List (String × Service)) (kv : Yaml × Yaml) :
    List (String × Service) :=
  match kv.1.asStr with
  | none => acc
  | some name =>
    match kv.2 with
    | Yaml.mapping svc_map =>
      let service : Service :=
        { image := extract_string svc_map "image"
          environment := extract_environment svc_map
          volumes := extract_string_list svc_map "volumes"
          depends_on := extract_depends_on svc_map
          command := extract_string_or_list svc_map "command"
          entrypoint := extract_string_or_list svc_map "entrypoint"
          healthcheck := extract_healthcheck svc_map
          ports := extract_ports svc_map
          labels := extract_labels svc_map }
      servicesInsert acc name service
    | _ => acc

/-- parse_compose from src/docker/compose.rs, over an already-parsed
YAML document (serde_yaml::from_str is the external YAML reader): the
root must carry a services mapping - an empty mapping is accepted - and
each well-formed entry becomes a Service. -/
def parse_compose (root : Yaml) : Except String ComposeFile :=
  match root with
  | Yaml.mapping kvs =>
    match yget kvs "services" with
    | some (Yaml.mapping services_raw) =>
      Except.ok { services := services_raw.foldl parseServiceEntry [] }
    | _ => Except.error "No services block found in Compose file"
  | _ => Except.error "No services block found in Compose file"

-- ======================================================
-- src/engine/stack.rs : the service loop of test_stack
-- ======================================================

/-- The dependency map test_stack builds for the sort (stack.rs lines
143-150): each service name mapped to its depends_on list (empty when
absent). -/
def depMap (compose : ComposeFile) : List (String × List String) :=
  compose.services.map (fun p => (p.1, p.2.depends_on.getD []))

/-- The per-service loop of test_stack (stack.rs lines 162-245) in
topological order: a name with no service entry is the Missing service
error, a service without an image is fatal, and otherwise the service is
scored from its observation trace with the fault injection applied.
Container creation, start and teardown are runtime I/O, summarised by
the observation trace. -/
def runOrder (compose : ComposeFile) (inject_failure : Option String)
    (traces : String → Nat → StatusObs) (timeout : Nat) :
    List String → Except String (List (String × Nat))
  | [] => Except.ok []
  | service_name :: rest =>
    match (compose.services.find? (fun p => p.1 == service_name)).map Prod.snd with
    | none => Except.error ("Missing service " ++ service_name)
    | some service =>
      match service.image with
      | none => Except.error ("Service " ++ service_name ++ " has no image")
      | some _ =>
        let score := scoreService inject_failure service_name (traces service_name) timeout
        match runOrder compose inject_failure traces timeout rest with
        | Except.error e => Except.error e
        | Except.ok scores => Except.ok ((service_name, score) :: scores)

/-- The scoring phase of test_stack: topologically sort the dependency
map and score every service in that order.  none is the unreachable
fuel exhaustion of the embedded sort. -/
def testStackScored (compose : ComposeFile) (inject_failure : Option String)
    (traces : String → Nat → StatusObs) (timeout : Nat) :
    Option (Except String (List (String × Nat))) :=
  match topological_sort (depMap compose) with
  | none => none
  | some (Except.error e) => some (Except.error e)
  | some (Except.ok order) =>
    some (runOrder compose inject_failure traces timeout order)

-- ======================================================
-- Concrete instances used by counterexamples and witnesses
-- ======================================================

/-- The api service of the two-service scenario: depends on db, has an
image, comes up healthy. -/
def svcApi : Service :=
  { image := some "img-api", environment := none, volumes := none,
    depends_on := some ["db"], command := none, healthcheck := none,
    ports := none, entrypoint := none, labels := none }

/-- The db service of the two-service scenario. -/
def svcDb : Service :=
  { image := some "img-db", environment := none, volumes := none,
    depends_on := none, command := none, healthcheck := none,
    ports := none, entrypoint := none, labels := none }

/-- The two-service stack api -> db. -/
def composeC2 : ComposeFile := { services := [("api", svcApi), ("db", svcDb)] }

/-- An observation trace on which every container reports RUNNING and
HEALTHY from the first poll. -/
def healthyTrace : String → Nat → StatusObs :=
  fun _ _ => StatusObs.running (some HealthObs.healthy)

/-- An observation trace on which a container never reaches a scoring
state before the timeout. -/
def stuckTrace : String → Nat → StatusObs :=
  fun _ _ => StatusObs.otherState

/-- A composition document whose services block is an empty mapping. -/
def emptyServicesYaml : Yaml := Yaml.mapping [(Yaml.str "services", Yaml.mapping [])]

/-- The parsed stack with no services. -/
def emptyCompose : ComposeFile := { services := [] }

/-- A policy that only sets fail_on_baseline_drift. -/
def polDriftOnly : StackPolicy := { emptyPolicy with fail_on_baseline_drift := some true }

/-- A policy that only sets fail_on_duration_spike. -/
def polSpikeOnly : StackPolicy := { emptyPolicy with fail_on_duration_spike := some true }

/-- A regression analysis with no previous run. -/
def regFresh : RegressionAnalysis := analyze_regression none 92 (some 100) 5

/-- A previous record whose duration is zero, for the duration-spike
rule. -/
def prevZeroDuration : RunRecord :=
  { stack := "s", timestamp := "2024-01-01T00:00:00+00:00",
    duration_seconds := 0, readiness := some 100, confidence := 80,
    risk := "MODERATE", exit_code := 0, services := [("a", 80)], hash := none }

/-- A record whose stored hash cannot match any recomputation under the
witness digest below. -/
def badRecord : RunRecord :=
  { stack := "s", timestamp := "2024-01-01T00:00:00+00:00",
    duration_seconds := 3, readiness := some 100, confidence := 80,
    risk := "MODERATE", exit_code := 0, services := [("a", 80)],
    hash := some "bogus" }

/-- A record carrying a hash consistent with the witness digest below. -/
def goodRecord : RunRecord :=
  { stack := "s", timestamp := "2024-01-02T00:00:00+00:00",
    duration_seconds := 3, readiness := some 100, confidence := 80,
    risk := "MODERATE", exit_code := 0, services := [("a", 80)],
    hash := some "ser" }

/-- A constant stand-in for serde_json::to_string in witnesses. -/
def constSerialize : RunRecord → String := fun _ => "ser"

/-- An identity stand-in for the hex SHA-256 digest in witnesses. -/
def idDigest : String → String := fun s => s

-- ======================================================
-- Theorems
-- ======================================================

/-- Helper: an optional flag defaulting to false is true exactly when it
is stored as some true. -/
theorem optFlag_getD_eq_true {o : Option Bool} : o.getD false = true ↔ o = some true := by
  cases o with
  | none => simp
  | some b => cases b <;> simp

/-- C4: every record written by persist stores in its hash field exactly
the digest of the record serialized with the hash field cleared, i.e.
hash == SHA256(record_without_hash) for the stored record, whatever the
(serde_json, sha2) serialization and digest functions are; equivalently,
re-running compute_hash on the stored record reproduces the stored
hash. -/
theorem C4_persisted_hash_invariant (serializeFn : RunRecord → String)
    (digestFn : String → String) (r : RunRecord) :
    (persistRecord serializeFn digestFn r).hash =
      some (digestFn (serializeFn (clearHash (persistRecord serializeFn digestFn r)))) ∧
    (persistRecord serializeFn digestFn r).hash =
      some (compute_hash serializeFn digestFn (persistRecord serializeFn digestFn r)) := by
  constructor <;> rfl

/-- C3: counter-evidence at a concrete schedule (fire times 100, 200,
300 with catch_up = false).  At now = 230 with stale state 50 the
scheduler advances and persists the state to the missed fire time 200
without dispatching - that much matches the claim - but at now = 330,
when the next window 300 arrives, the evaluation again only advances the
state and never dispatches, contradicting the claim that the next window
fires normally. -/
theorem C3_next_window_not_dispatched :
    schedulerStep false [100, 200, 300] (some 50) 230 = [SchedEffect.writeState 200] ∧
    schedulerStep false [100, 200, 300] (some 200) 330 = [SchedEffect.writeState 300] ∧
    SchedEffect.dispatch ∉ schedulerStep false [100, 200, 300] (some 200) 330 ∧
    schedulerStep true [100, 200, 300] (some 200) 330 =
      [SchedEffect.writeState 300, SchedEffect.dispatch] := by
  refine ⟨by decide, by decide, by decide, by decide⟩

/-- C2: counterexample to the claimed exit code.  In the two-service
stack api -> db with both containers healthy and inject_failure = api,
the scores are api 0 and db 100 and confidence is 50 with risk HIGH as
claimed, but a confidence of 50 falls in the 40..69 band, so both the
persisted exit_code and the process exit code are 2, not 3. -/
theorem C2_exit_code_counterexample :
    testStackScored composeC2 (some "api") healthyTrace 30 =
      some (Except.ok [("db", 100), ("api", 0)]) ∧
    aggregateConfidence [("db", 100), ("api", 0)] = some 50 ∧
    riskOf 50 = "HIGH" ∧
    evaluatePolicy none 50 100 (analyze_regression none 50 (some 100) 1)
      [("db", 100), ("api", 0)] false = false ∧
    mainExitCode false false 50 = 2 ∧
    recordExitCode false false none 50 = 2 ∧
    (2 : Nat) ≠ 3 := by
  refine ⟨rfl, by decide, by decide, by decide, by decide, by decide, by decide⟩

/-- C2 (amended): with inject_failure = api on the healthy two-service
stack api -> db, the service scores are api 0 and db 100, confidence is
50, risk is HIGH, and the exit code is 2 (the 40..69 confidence band),
both as persisted and as the process exit. -/
theorem C2_injected_failure_run :
    testStackScored composeC2 (some "api") healthyTrace 30 =
      some (Except.ok [("db", 100), ("api", 0)]) ∧
    ([("db", 100), ("api", 0)] : List (String × Nat)).lookup "api" = some 0 ∧
    ([("db", 100), ("api", 0)] : List (String × Nat)).lookup "db" = some 100 ∧
    aggregateConfidence [("db", 100), ("api", 0)] = some 50 ∧
    riskOf 50 = "HIGH" ∧
    mainExitCode (evaluatePolicy none 50 100 (analyze_regression none 50 (some 100) 1)
      [("db", 100), ("api", 0)] false) false 50 = 2 ∧
    recordExitCode (evaluatePolicy none 50 100 (analyze_regression none 50 (some 100) 1)
      [("db", 100), ("api", 0)] false) false none 50 = 2 := by
  refine ⟨rfl, by decide, by decide, by decide, by decide, by decide, by decide⟩

/-- C10: the parser accepts a composition file whose services block is
an empty mapping, the scoring loop then scores zero services, and the
confidence aggregation divides by the number of scored services, which
is zero: the Rust expression total / service_scores.len() panics
(modelled by aggregateConfidence returning none), so test_stack does
fault at the aggregation step, contrary to the claim. -/
theorem C10_empty_services_zero_divisor :
    (parse_compose emptyServicesYaml).map ComposeFile.services = Except.ok [] ∧
    testStackScored emptyCompose none stuckTrace 30 = some (Except.ok []) ∧
    ([] : List (String × Nat)).length = 0 ∧
    aggregateConfidence [] = none := by
  refine ⟨rfl, rfl, rfl, rfl⟩

/-- C1: counterexample to the claimed exit codes.  (a) With a policy
that sets fail_on_baseline_drift and drift present (confidence 92, no
other rule firing), the drift enforcement itself raises
policy_violation, so both the persisted exit_code and the process exit
code are 4, not the claimed 5.  (b) With no policy at all, drift
present and confidence 92, the process exit code is 5, not the claimed
0 (the persisted exit_code is 0 there). -/
theorem C1_exit_code_counterexample :
    evaluatePolicy (some polDriftOnly) 92 100 regFresh [("x", 92)] true = true ∧
    mainExitCode true true 92 = 4 ∧
    recordExitCode true true (some polDriftOnly) 92 = 4 ∧
    (4 : Nat) ≠ 5 ∧
    evaluatePolicy none 92 100 regFresh [("x", 92)] true = false ∧
    mainExitCode false true 92 = 5 ∧
    recordExitCode false true none 92 = 0 ∧
    (5 : Nat) ≠ 0 := by
  refine ⟨by decide, by decide, by decide, by decide, by decide, by decide, by decide, by decide⟩

/-- C1 (amended): for a rehearsal that completes scoring, the exit code
is 4 when any policy rule is violated, and drift under a policy that
sets fail_on_baseline_drift is itself a policy violation, so the
drift-with-enforcement case exits 4 (the exit-5-on-enforced-drift branch
of the record exit code is subsumed); when no rule is violated and
drift is present the process exits 5 regardless of
fail_on_baseline_drift, while the persisted record's exit_code falls
back to the confidence bands; with no violation and no drift both exit
codes are banded by confidence (>= 70 gives 0, 40..69 gives 2, below 40
gives 3); and a fatal executor error exits 1. -/
theorem C1_exit_code_contract (policyOpt : Option StackPolicy)
    (confidence readinessScore : Nat) (regression : RegressionAnalysis)
    (scores : List (String × Nat)) (drift : Bool) :
    (∀ p, policyOpt = some p → p.fail_on_baseline_drift = some true → drift = true →
      evaluatePolicy policyOpt confidence readinessScore regression scores drift = true) ∧
    (evaluatePolicy policyOpt confidence readinessScore regression scores drift = true →
      mainExitCode (evaluatePolicy policyOpt confidence readinessScore regression scores drift)
          drift confidence = 4 ∧
      recordExitCode (evaluatePolicy policyOpt confidence readinessScore regression scores drift)
          drift policyOpt confidence = 4) ∧
    (evaluatePolicy policyOpt confidence readinessScore regression scores drift = false →
      drift = true →
      mainExitCode (evaluatePolicy policyOpt confidence readinessScore regression scores drift)
          drift confidence = 5 ∧
      recordExitCode (evaluatePolicy policyOpt confidence readinessScore regression scores drift)
          drift policyOpt confidence =
        (if 70 ≤ confidence then 0 else if 40 ≤ confidence then 2 else 3)) ∧
    (evaluatePolicy policyOpt confidence readinessScore regression scores drift = false →
      drift = false →
      mainExitCode (evaluatePolicy policyOpt confidence readinessScore regression scores drift)
          drift confidence =
        (if 70 ≤ confidence then 0 else if 40 ≤ confidence then 2 else 3) ∧
      recordExitCode (evaluatePolicy policyOpt confidence readinessScore regression scores drift)
          drift policyOpt confidence =
        (if 70 ≤ confidence then 0 else if 40 ≤ confidence then 2 else 3)) ∧
    (∀ e, mainExitOf (Except.error e) = 1) := by
  refine ⟨?_, ?_, ?_, ?_, fun e => rfl⟩
  · intro p hp hflag hdrift
    subst hp hdrift
    simp [evaluatePolicy, baselineDriftViolated, hflag]
  · intro h
    rw [h]
    constructor
    · simp [mainExitCode]
    · simp [recordExitCode]
  · intro h hdrift
    subst hdrift
    rw [h]
    constructor
    · simp [mainExitCode]
    · have hflag : (policyOpt.bind (fun p => p.fail_on_baseline_drift)).getD false = false := by
        cases policyOpt with
        | none => rfl
        | some p =>
          cases hb : (p.fail_on_baseline_drift).getD false with
          | false => simpa using hb
          | true =>
            exfalso
            have htrue : evaluatePolicy (some p) confidence readinessScore regression
                scores true = true := by
              simp [evaluatePolicy, baselineDriftViolated, hb]
            rw [h] at htrue
            exact Bool.false_ne_true htrue
      unfold recordExitCode
      rw [hflag]
      simp
  · intro h hdrift
    subst hdrift
    rw [h]
    constructor
    · unfold mainExitCode
      split_ifs <;> first | rfl | omega | simp_all
    · unfold recordExitCode
      split_ifs <;> first | rfl | omega | simp_all

/-- C1 witness: the amended exit-code contract applied at concrete
inputs - a drift-enforcing policy with drift (exit 4), a drifting run
without a policy (exit 5), a clean run at confidence 55 (exit 2), and a
fatal error (exit 1). -/
theorem C1_exit_code_contract_witness :
    evaluatePolicy (some polDriftOnly) 92 100 regFresh [("x", 92)] true = true ∧
    mainExitCode (evaluatePolicy (some polDriftOnly) 92 100 regFresh [("x", 92)] true)
      true 92 = 4 ∧
    mainExitCode (evaluatePolicy none 92 100 regFresh [("x", 92)] true) true 92 = 5 ∧
    mainExitCode (evaluatePolicy none 55 100 regFresh [("x", 55)] false) false 55 =
      (if 70 ≤ 55 then 0 else if 40 ≤ (55 : Nat) then 2 else 3) ∧
    mainExitOf (Except.error "fatal") = 1 := by
  refine ⟨?_, ?_, ?_, ?_, ?_⟩
  · exact (C1_exit_code_contract (some polDriftOnly) 92 100 regFresh [("x", 92)] true).1
      polDriftOnly rfl (by decide) rfl
  · exact ((C1_exit_code_contract (some polDriftOnly) 92 100 regFresh [("x", 92)] true).2.1
      (by decide)).1
  · exact ((C1_exit_code_contract none 92 100 regFresh [("x", 92)] true).2.2.1
      (by decide) rfl).1
  · exact ((C1_exit_code_contract none 55 100 regFresh [("x", 55)] false).2.2.2.1
      (by decide) rfl).1
  · exact (C1_exit_code_contract none 55 100 regFresh [("x", 55)] false).2.2.2.2 "fatal"

/-- C8: analyze_regression reports a duration delta of
(current - previous) * 100 / previous (Rust i64 division) exactly when
the previous duration is positive, and no delta otherwise (in
particular none when there is no previous run); consequently the
fail_on_duration_spike rule fires exactly when it is enabled and a
present delta exceeds the duration_spike_percent threshold (default
50), and never fires when the previous duration is 0. -/
theorem C8_duration_spike_rule (prev : RunRecord) (current_confidence : Nat)
    (current_readiness : Option Nat) (current_duration : Nat) (p : StackPolicy) :
    ((analyze_regression (some prev) current_confidence current_readiness
        current_duration).duration_delta_percent =
      if 0 < prev.duration_seconds then
        some (Int.tdiv (((current_duration : Int) - (prev.duration_seconds : Int)) * 100)
          (prev.duration_seconds : Int))
      else none) ∧
    ((analyze_regression none current_confidence current_readiness
        current_duration).duration_delta_percent = none) ∧
    (durationSpikeViolated p (analyze_regression (some prev) current_confidence
        current_readiness current_duration) = true ↔
      p.fail_on_duration_spike = some true ∧
      ∃ dp, (analyze_regression (some prev) current_confidence current_readiness
          current_duration).duration_delta_percent = some dp ∧
        (p.duration_spike_percent.getD 50 : Int) < dp) ∧
    (prev.duration_seconds = 0 →
      durationSpikeViolated p (analyze_regression (some prev) current_confidence
        current_readiness current_duration) = false) := by
  refine ⟨rfl, rfl, ?_, ?_⟩
  · constructor
    · intro h
      simp only [durationSpikeViolated, Bool.and_eq_true] at h
      obtain ⟨henabled, hmatch⟩ := h
      refine ⟨?_, ?_⟩
      · exact optFlag_getD_eq_true.mp henabled
      · cases hdp : (analyze_regression (some prev) current_confidence current_readiness
            current_duration).duration_delta_percent with
        | none => rw [hdp] at hmatch; simp at hmatch
        | some dp =>
          rw [hdp] at hmatch
          simp only [decide_eq_true_eq] at hmatch
          exact ⟨dp, rfl, hmatch⟩
    · rintro ⟨henabled, dp, hdp, hgt⟩
      simp only [durationSpikeViolated, henabled, Option.getD_some, Bool.true_and, hdp,
        decide_eq_true_eq]
      exact hgt
  · intro hz
    simp only [durationSpikeViolated, analyze_regression, hz]
    simp

/-- C8 witness: the duration-spike contract applied with a previous run
of duration zero and a spike-enforcing policy - the rule yields no
violation. -/
theorem C8_duration_spike_rule_witness :
    prevZeroDuration.duration_seconds = 0 ∧
    durationSpikeViolated polSpikeOnly
      (analyze_regression (some prevZeroDuration) 50 none 10) = false := by
  exact ⟨rfl, (C8_duration_spike_rule prevZeroDuration 50 none 10 polSpikeOnly).2.2.2 rfl⟩

/-- Helper: an optional integer defaulting to 0 is non-zero exactly when
it holds a non-zero value. -/
theorem optGetD_zero_ne {o : Option Int} : (o.getD 0 != 0) = true ↔ ∃ x, o = some x ∧ x ≠ 0 := by
  cases o <;> simp

/-- Helper: a list is non-empty as a boolean exactly when it is not the
empty list. -/
theorem bnotIsEmpty_iff {α : Type} (l : List α) : (!l.isEmpty) = true ↔ l ≠ [] := by
  cases l <;> simp

/-- C5: compare_to_baseline returns as new_services exactly the current
service keys outside expected_services and as missing_services exactly
the expected services outside the current keys (so no service is in
both), its confidence_delta is current minus expected confidence, a
readiness delta is produced exactly when both readiness values are
present (and is then their difference), and the run is reported as
drifted exactly when some delta is non-zero or either service set is
non-empty. -/
theorem C5_compare_to_baseline_spec (baseline : StackBaseline)
    (current_services : List (String × Nat)) (current_confidence : Nat)
    (current_readiness : Option Nat) (current_duration : Nat) :
    (∀ s, s ∈ (compare_to_baseline baseline current_services current_confidence
        current_readiness current_duration).new_services ↔
      (s ∈ current_services.map Prod.fst ∧ s ∉ baseline.expected_services)) ∧
    (∀ s, s ∈ (compare_to_baseline baseline current_services current_confidence
        current_readiness current_duration).missing_services ↔
      (s ∈ baseline.expected_services ∧ s ∉ current_services.map Prod.fst)) ∧
    (∀ s, ¬(s ∈ (compare_to_baseline baseline current_services current_confidence
        current_readiness current_duration).new_services ∧
      s ∈ (compare_to_baseline baseline current_services current_confidence
        current_readiness current_duration).missing_services)) ∧
    ((compare_to_baseline baseline current_services current_confidence
        current_readiness current_duration).confidence_delta =
      (current_confidence : Int) - (baseline.expected_confidence : Int)) ∧
    ((compare_to_baseline baseline current_services current_confidence
        current_readiness current_duration).readiness_delta =
      match current_readiness, baseline.expected_readiness with
      | some c, some e => some ((c : Int) - (e : Int))
      | _, _ => none) ∧
    ((compare_to_baseline baseline current_services current_confidence
        current_readiness current_duration).readiness_delta.isSome ↔
      (current_readiness.isSome ∧ baseline.expected_readiness.isSome)) ∧
    (hasDrift (compare_to_baseline baseline current_services current_confidence
        current_readiness current_duration) = true ↔
      ((compare_to_baseline baseline current_services current_confidence
          current_readiness current_duration).confidence_delta ≠ 0 ∨
        (∃ x, (compare_to_baseline baseline current_services current_confidence
            current_readiness current_duration).readiness_delta = some x ∧ x ≠ 0) ∨
        (∃ x, (compare_to_baseline baseline current_services current_confidence
            current_readiness current_duration).duration_delta_percent = some x ∧ x ≠ 0) ∨
        (compare_to_baseline baseline current_services current_confidence
          current_readiness current_duration).new_services ≠ [] ∨
        (compare_to_baseline baseline current_services current_confidence
          current_readiness current_duration).missing_services ≠ [])) := by
  refine ⟨?_, ?_, ?_, rfl, ?_, ?_, ?_⟩
  · intro s
    simp [compare_to_baseline, List.mem_filter]
  · intro s
    simp [compare_to_baseline, List.mem_filter]
  · intro s
    rintro ⟨hn, hm⟩
    simp only [compare_to_baseline] at hn hm
    have h1 := (List.mem_filter.mp hn).2
    have h2 := (List.mem_filter.mp hm).1
    have h3 : s ∉ baseline.expected_services := by simpa using h1
    exact h3 h2
  · rfl
  · cases current_readiness <;> cases hb : baseline.expected_readiness <;>
      simp [compare_to_baseline, hb]
  · unfold hasDrift
    rw [Bool.or_eq_true, Bool.or_eq_true, Bool.or_eq_true, Bool.or_eq_true,
      bnotIsEmpty_iff, bnotIsEmpty_iff, bne_iff_ne, optGetD_zero_ne, optGetD_zero_ne]
    constructor
    · rintro ((((h | h) | h) | h) | h)
      exacts [Or.inr (Or.inr (Or.inr (Or.inl h))), Or.inr (Or.inr (Or.inr (Or.inr h))),
        Or.inl h, Or.inr (Or.inl h), Or.inr (Or.inr (Or.inl h))]
    · rintro (h | h | h | h | h)
      exacts [Or.inl (Or.inl (Or.inr h)), Or.inl (Or.inr h), Or.inr h,
        Or.inl (Or.inl (Or.inl (Or.inl h))), Or.inl (Or.inl (Or.inl (Or.inr h)))]

/-- C5 witness: the drift contract applied to the pinned baseline of the
specification scenario (services x and y, confidence 92) against a run
with services x, y, z at confidence 92: z is a new service and drift is
present. -/
theorem C5_compare_to_baseline_spec_witness :
    "z" ∈ (compare_to_baseline
      { stack := "s", expected_services := ["x", "y"], expected_confidence := 92,
        expected_readiness := some 100, expected_duration := 5,
        service_scores := [("x", 92), ("y", 92)], pinned_at := none, promoted_at := none }
      [("x", 100), ("y", 100), ("z", 100)] 92 (some 100) 5).new_services ∧
    (compare_to_baseline
      { stack := "s", expected_services := ["x", "y"], expected_confidence := 92,
        expected_readiness := some 100, expected_duration := 5,
        service_scores := [("x", 92), ("y", 92)], pinned_at := none, promoted_at := none }
      [("x", 100), ("y", 100), ("z", 100)] 92 (some 100) 5).new_services ≠ [] := by
  constructor
  · exact ((C5_compare_to_baseline_spec
      { stack := "s", expected_services := ["x", "y"], expected_confidence := 92,
        expected_readiness := some 100, expected_duration := 5,
        service_scores := [("x", 92), ("y", 92)], pinned_at := none, promoted_at := none }
      [("x", 100), ("y", 100), ("z", 100)] 92 (some 100) 5).1 "z").mpr (by decide)
  · intro hnil
    exact absurd (hnil ▸ ((C5_compare_to_baseline_spec
      { stack := "s", expected_services := ["x", "y"], expected_confidence := 92,
        expected_readiness := some 100, expected_duration := 5,
        service_scores := [("x", 92), ("y", 92)], pinned_at := none, promoted_at := none }
      [("x", 100), ("y", 100), ("z", 100)] 92 (some 100) 5).1 "z").mpr (by decide))
      (List.not_mem_nil "z")


/-- Helper: the polling loop only ever returns 0, 40, 85 or 100. -/
theorem waitLoop_mem (obs : Nat → StatusObs) :
    ∀ remaining elapsed, waitLoop obs remaining elapsed = 0 ∨
      waitLoop obs remaining elapsed = 40 ∨ waitLoop obs remaining elapsed = 85 ∨
      waitLoop obs remaining elapsed = 100 := by
  intro remaining
  induction remaining with
  | zero => intro elapsed; exact Or.inl rfl
  | succ n ih =>
    intro elapsed
    unfold waitLoop
    cases obs elapsed with
    | running health =>
      cases health with
      | none => exact Or.inr (Or.inr (Or.inl rfl))
      | some h =>
        cases h with
        | healthy => exact Or.inr (Or.inr (Or.inr rfl))
        | unhealthy => exact Or.inr (Or.inl rfl)
        | otherHealth => exact ih (elapsed + 1)
    | exited => exact Or.inl rfl
    | otherState => exact ih (elapsed + 1)

/-- Helper: a per-service score (wait_and_score plus fault injection) is
0, 40, 85 or 100. -/
theorem scoreService_mem (inject_failure : Option String) (service_name : String)
    (obs : Nat → StatusObs) (timeout : Nat) :
    scoreService inject_failure service_name obs timeout = 0 ∨
      scoreService inject_failure service_name obs timeout = 40 ∨
      scoreService inject_failure service_name obs timeout = 85 ∨
      scoreService inject_failure service_name obs timeout = 100 := by
  unfold scoreService wait_and_score
  split
  · exact Or.inl rfl
  · exact waitLoop_mem obs timeout 0

/-- Helper: every score produced by the service loop is 0, 40, 85 or
100. -/
theorem runOrder_scores_mem (compose : ComposeFile) (inject_failure : Option String)
    (traces : String → Nat → StatusObs) (timeout : Nat) :
    ∀ order scores, runOrder compose inject_failure traces timeout order =
        Except.ok scores →
      ∀ p ∈ scores, p.2 = 0 ∨ p.2 = 40 ∨ p.2 = 85 ∨ p.2 = 100 := by
  intro order
  induction order with
  | nil =>
    intro scores h p hp
    simp only [runOrder] at h
    cases h
    exact absurd hp (List.not_mem_nil p)
  | cons name rest ih =>
    intro scores h p hp
    simp only [runOrder] at h
    split at h
    · cases h
    · split at h
      · cases h
      · split at h
        · cases h
        · rename_i restScores hrec
          cases h
          rcases List.mem_cons.mp hp with hhead | htail
          · rw [hhead]
            exact scoreService_mem inject_failure name (traces name) timeout
          · exact ih restScores hrec p htail

/-- C9: for every run whose scoring phase completes, each service score
is one of 0, 40, 85, 100; when at least one service was scored the
confidence is the integer mean of the scores, lies in 0..100, and the
risk band is LOW exactly on 90..100, MODERATE on 70..89, HIGH on 40..69
and CRITICAL below 40. -/
theorem C9_scores_confidence_risk (compose : ComposeFile)
    (inject_failure : Option String) (traces : String → Nat → StatusObs)
    (timeout : Nat) (scores : List (String × Nat))
    (h : testStackScored compose inject_failure traces timeout =
      some (Except.ok scores)) :
    (∀ p ∈ scores, p.2 = 0 ∨ p.2 = 40 ∨ p.2 = 85 ∨ p.2 = 100) ∧
    (scores ≠ [] →
      aggregateConfidence scores = some ((scores.map Prod.snd).sum / scores.length)) ∧
    (∀ c, aggregateConfidence scores = some c →
      c ≤ 100 ∧
      (riskOf c = "LOW" ↔ 90 ≤ c) ∧
      (riskOf c = "MODERATE" ↔ (70 ≤ c ∧ c ≤ 89)) ∧
      (riskOf c = "HIGH" ↔ (40 ≤ c ∧ c ≤ 69)) ∧
      (riskOf c = "CRITICAL" ↔ c ≤ 39)) := by
  have hmem : ∀ p ∈ scores, p.2 = 0 ∨ p.2 = 40 ∨ p.2 = 85 ∨ p.2 = 100 := by
    unfold testStackScored at h
    cases hsort : topological_sort (depMap compose) with
    | none => rw [hsort] at h; cases h
    | some r =>
      rw [hsort] at h
      cases r with
      | error e => cases h
      | ok order =>
        simp only [Option.some.injEq] at h
        exact runOrder_scores_mem compose inject_failure traces timeout order scores h
  refine ⟨hmem, ?_, ?_⟩
  · intro hne
    unfold aggregateConfidence
    rw [if_neg (by simpa using hne)]
  · intro c hc
    unfold aggregateConfidence at hc
    by_cases hlen : scores.length = 0
    · rw [if_pos hlen] at hc; cases hc
    · rw [if_neg hlen] at hc
      have hc2 : (scores.map Prod.snd).sum / scores.length = c := by
        simpa using hc
      have hbound : (scores.map Prod.snd).sum ≤ scores.length * 100 := by
        have hall : ∀ x ∈ scores.map Prod.snd, x ≤ 100 := by
          intro x hx
          rcases List.mem_map.mp hx with ⟨p, hp, hpx⟩
          rcases hmem p hp with h0 | h0 | h0 | h0 <;> omega
        have := List.sum_le_card_nsmul (scores.map Prod.snd) 100 hall
        simpa [smul_eq_mul] using this
      have hle : c ≤ 100 := by
        rw [← hc2]
        exact Nat.div_le_of_le_mul hbound
      refine ⟨hle, ?_, ?_, ?_, ?_⟩ <;> unfold riskOf <;> split_ifs <;>
        constructor <;> intro hx <;>
        first
          | omega
          | rfl
          | (exact absurd hx (by decide))

/-- C9 witness: the scoring contract applied to the healthy two-service
run - both scores are 100, confidence is 100 and the risk band is
LOW. -/
theorem C9_scores_confidence_risk_witness :
    (∀ p ∈ [("db", (100 : Nat)), ("api", 100)], p.2 = 0 ∨ p.2 = 40 ∨ p.2 = 85 ∨ p.2 = 100) ∧
    aggregateConfidence [("db", 100), ("api", 100)] = some 100 ∧
    (100 : Nat) ≤ 100 ∧
    riskOf 100 = "LOW" := by
  have h := C9_scores_confidence_risk composeC2 none healthyTrace 30
    [("db", 100), ("api", 100)] rfl
  refine ⟨h.1, by decide, (h.2.2 100 (by decide)).1, ?_⟩
  exact ((h.2.2 100 (by decide)).2.1).mpr (by omega)

/-- Helper: lexLe is total. -/
theorem lexLe_total : ∀ a b : List Char, lexLe a b = true ∨ lexLe b a = true := by
  intro a
  induction a with
  | nil => intro b; exact Or.inl rfl
  | cons x xs ih =>
    intro b
    cases b with
    | nil => exact Or.inr rfl
    | cons y ys =>
      by_cases h1 : x.toNat < y.toNat
      · exact Or.inl (by simp [lexLe, h1])
      · by_cases h2 : y.toNat < x.toNat
        · exact Or.inr (by simp [lexLe, h1, h2])
        · rcases ih ys with h | h
          · exact Or.inl (by simp [lexLe, h1, h2, h])
          · exact Or.inr (by simp [lexLe, h1, h2, h])

/-- Helper: lexLe is transitive. -/
theorem lexLe_trans : ∀ a b c : List Char, lexLe a b = true → lexLe b c = true →
    lexLe a c = true := by
  intro a
  induction a with
  | nil => intro b c _ _; rfl
  | cons x xs ih =>
    intro b c hab hbc
    cases b with
    | nil => simp [lexLe] at hab
    | cons y ys =>
      cases c with
      | nil => simp [lexLe] at hbc
      | cons z zs =>
        simp only [lexLe] at hab hbc ⊢
        by_cases hxy : x.toNat < y.toNat
        · by_cases hyz : y.toNat < z.toNat
          · have : x.toNat < z.toNat := by omega
            simp [this]
          · by_cases hzy : z.toNat < y.toNat
            · rw [if_neg hyz, if_pos hzy] at hbc
              cases hbc
            · have : y.toNat = z.toNat := by omega
              have hxz : x.toNat < z.toNat := by omega
              simp [hxz]
        · by_cases hyx : y.toNat < x.toNat
          · rw [if_neg hxy, if_pos hyx] at hab
            cases hab
          · have hxyEq : x.toNat = y.toNat := by omega
            rw [if_neg hxy, if_neg hyx] at hab
            by_cases hyz : y.toNat < z.toNat
            · have : x.toNat < z.toNat := by omega
              simp [this]
            · by_cases hzy : z.toNat < y.toNat
              · rw [if_neg hyz, if_pos hzy] at hbc
                cases hbc
              · rw [if_neg hyz, if_neg hzy] at hbc
                have hxz : ¬ x.toNat < z.toNat := by omega
                have hzx : ¬ z.toNat < x.toNat := by omega
                rw [if_neg hxz, if_neg hzx]
                exact ih ys zs hab hbc

instance {α : Type} : IsTotal (String × α) entryLe :=
  ⟨fun a b => lexLe_total a.1.data b.1.data⟩

instance {α : Type} : IsTrans (String × α) entryLe :=
  ⟨fun a b c hab hbc => lexLe_trans a.1.data b.1.data c.1.data hab hbc⟩

/-- Helper: the integrity scan fails on the first entry, in list order,
whose stored hash does not match its recomputed hash, and succeeds when
there is none. -/
theorem scanIntegrity_eq_find (serializeFn : RunRecord → String)
    (digestFn : String → String) :
    ∀ l : List (String × RunRecord),
      scanIntegrity serializeFn digestFn l =
        match l.find? (fun p => !(hashOkB serializeFn digestFn p.2)) with
        | none => Except.ok ()
        | some q => Except.error ("Integrity violation detected in " ++ q.1) := by
  intro l
  induction l with
  | nil => rfl
  | cons q rest ih =>
    obtain ⟨fname, r⟩ := q
    cases hh : r.hash with
    | none =>
      have hok : hashOkB serializeFn digestFn r = true := by
        unfold hashOkB
        rw [hh]
      rw [List.find?_cons_of_neg _ (by simp [hok])]
      simp only [scanIntegrity, hh, ih]
    | some stored =>
      by_cases heq : compute_hash serializeFn digestFn r = stored
      · have hok : hashOkB serializeFn digestFn r = true := by
          unfold hashOkB
          rw [hh]
          exact beq_iff_eq.mpr heq
        rw [List.find?_cons_of_neg _ (by simp [hok])]
        simp only [scanIntegrity, hh, if_pos heq, ih]
      · have hok : hashOkB serializeFn digestFn r = false := by
          unfold hashOkB
          rw [hh]
          exact beq_eq_false_iff_ne.mpr heq
        rw [List.find?_cons_of_pos _ (by simp [hok])]
        simp only [scanIntegrity, hh, if_neg heq]

/-- C7: validate_stack_integrity returns Ok for a missing history
directory; it returns Ok when every stored record re-hashes to its
stored hash; it scans the entries in sorted file-name order (the
scanned list is a sorted permutation of the directory); it returns an
error naming the first file, in that order, whose stored hash differs
from the recomputed one; and under strict_integrity such an error
aborts the run with it before the lock is acquired. -/
theorem C7_validate_stack_integrity_spec (serializeFn : RunRecord → String)
    (digestFn : String → String) :
    (validate_stack_integrity serializeFn digestFn none = Except.ok ()) ∧
    (∀ entries, (∀ p ∈ entries, hashOkB serializeFn digestFn p.2 = true) →
      validate_stack_integrity serializeFn digestFn (some entries) = Except.ok ()) ∧
    (∀ entries : List (String × RunRecord),
      (sortEntries entries).Perm entries ∧ List.Pairwise entryLe (sortEntries entries)) ∧
    (∀ entries fname r,
      (sortEntries entries).find? (fun p => !(hashOkB serializeFn digestFn p.2)) =
        some (fname, r) →
      validate_stack_integrity serializeFn digestFn (some entries) =
        Except.error ("Integrity violation detected in " ++ fname)) ∧
    (∀ strict integrity e, integrity = Except.error e → strict = true →
      (test_stack_prelude strict integrity).2 = some e ∧
      RunStep.lockAcquire ∉ (test_stack_prelude strict integrity).1) := by
  refine ⟨rfl, ?_, ?_, ?_, ?_⟩
  · intro entries hall
    simp only [validate_stack_integrity]
    rw [scanIntegrity_eq_find]
    have : (sortEntries entries).find?
        (fun p => !(hashOkB serializeFn digestFn p.2)) = none := by
      apply List.find?_eq_none.mpr
      intro p hp
      have hp2 : p ∈ entries := (List.perm_insertionSort entryLe entries).mem_iff.mp hp
      simp [hall p hp2]
    rw [this]
  · intro entries
    exact ⟨List.perm_insertionSort entryLe entries,
      List.sorted_insertionSort entryLe entries⟩
  · intro entries fname r hfind
    simp only [validate_stack_integrity]
    rw [scanIntegrity_eq_find, hfind]
  · intro strict integrity e hint hstrict
    subst hint hstrict
    exact ⟨rfl, by simp [test_stack_prelude]⟩

/-- C7 witness: with a two-file history in which the lexicographically
first file a.json carries a corrupted hash, validation reports the
integrity violation in a.json, the strict-integrity gate aborts before
the lock step, and a missing history directory validates Ok. -/
theorem C7_validate_stack_integrity_spec_witness :
    validate_stack_integrity constSerialize idDigest
      (some [("b.json", goodRecord), ("a.json", badRecord)]) =
      Except.error "Integrity violation detected in a.json" ∧
    RunStep.lockAcquire ∉
      (test_stack_prelude true (Except.error "Integrity violation detected in a.json")).1 ∧
    validate_stack_integrity constSerialize idDigest none = Except.ok () := by
  refine ⟨?_, ?_, (C7_validate_stack_integrity_spec constSerialize idDigest).1⟩
  · exact (C7_validate_stack_integrity_spec constSerialize idDigest).2.2.2.1
      [("b.json", goodRecord), ("a.json", badRecord)] "a.json" badRecord rfl
  · exact ((C7_validate_stack_integrity_spec constSerialize idDigest).2.2.2.2
      true (Except.error "Integrity violation detected in a.json")
      "Integrity violation detected in a.json" rfl rfl).2

/-- Helper: every element of a list of naturals is at most its foldr
maximum. -/
theorem le_foldr_max : ∀ (l : List Nat), ∀ x ∈ l, x ≤ l.foldr max 0 := by
  intro l
  induction l with
  | nil => intro x hx; exact absurd hx (List.not_mem_nil x)
  | cons y ys ih =>
    intro x hx
    rcases List.mem_cons.mp hx with h | h
    · rw [h]; exact le_max_left y (ys.foldr max 0)
    · exact le_trans (ih x h) (le_max_right y (ys.foldr max 0))

/-- Helper: a dependency list is never longer than maxDepsLen. -/
theorem depsOf_length_le (services : List (String × List String)) (n : String) :
    (depsOf services n).length ≤ maxDepsLen services := by
  unfold depsOf lookupDeps
  cases hfind : services.find? (fun p => p.1 == n) with
  | none => simp
  | some p =>
    have hp : p ∈ services := List.mem_of_find?_eq_some hfind
    have : p.2.length ∈ services.map (fun q => q.2.length) :=
      List.mem_map.mpr ⟨p, hp, rfl⟩
    simpa [maxDepsLen] using le_foldr_max _ _ this

/-- Helper: every key of the map is a graph node. -/
theorem keys_subset_graphNodes (services : List (String × List String)) :
    ∀ k ∈ services.map Prod.fst, k ∈ graphNodes services := by
  intro k hk
  unfold graphNodes
  rw [List.mem_toFinset]
  exact List.mem_append_left _ hk

/-- Helper: every listed dependency is a graph node. -/
theorem depsOf_subset_graphNodes (services : List (String × List String))
    (n d : String) (hd : d ∈ depsOf services n) : d ∈ graphNodes services := by
  unfold depsOf lookupDeps at hd
  cases hfind : services.find? (fun p => p.1 == n) with
  | none => rw [hfind] at hd; simp at hd
  | some p =>
    rw [hfind] at hd
    have hd2 : d ∈ p.2 := by simpa using hd
    have hp : p ∈ services := List.mem_of_find?_eq_some hfind
    unfold graphNodes
    rw [List.mem_toFinset]
    refine List.mem_append_right _ ?_
    exact List.mem_flatten.mpr ⟨p.2, List.mem_map.mpr ⟨p, hp, rfl⟩, hd2⟩

/-- Helper: a successful walk restores the current path exactly and only
grows the visited set. -/
theorem visitMany_state_shape (services : List (String × List String)) :
    ∀ fuel todo st st2,
      visitMany services fuel todo st = some (Except.ok st2) →
      st2.temp = st.temp ∧ (∀ n ∈ st.visited, n ∈ st2.visited) := by
  intro fuel
  induction fuel with
  | zero => intro todo st st2 h; cases h
  | succ f ih =>
    intro todo st st2 h
    cases todo with
    | nil =>
      simp only [visitMany, Option.some.injEq, Except.ok.injEq] at h
      rw [← h]
      exact ⟨rfl, fun n hn => hn⟩
    | cons node rest =>
      simp only [visitMany] at h
      by_cases hv : node ∈ st.visited
      · rw [if_pos hv] at h
        exact ih rest st st2 h
      · rw [if_neg hv] at h
        by_cases ht : node ∈ st.temp
        · rw [if_pos ht] at h
          cases h
        · rw [if_neg ht] at h
          cases hch : visitMany services f (depsOf services node)
              { st with temp := node :: st.temp } with
          | none => rw [hch] at h; cases h
          | some r =>
            rw [hch] at h
            cases r with
            | error e => cases h
            | ok mid =>
              have hmid := ih (depsOf services node)
                { st with temp := node :: st.temp } mid hch
              have hcont := ih rest
                { visited := node :: mid.visited,
                  temp := mid.temp.erase node,
                  result := mid.result ++ [node] } st2 h
              constructor
              · rw [hcont.1]
                simp only
                rw [hmid.1]
                exact List.erase_cons_head node st.temp
              · intro n hn
                exact hcont.2 n (List.mem_cons_of_mem node (hmid.2 n hn))

/-- Helper: a successful walk preserves the walk invariant, only appends
to the result, and leaves every worklist node in the result. -/
theorem visitMany_ok_inv (services : List (String × List String)) :
    ∀ fuel todo st st2,
      visitMany services fuel todo st = some (Except.ok st2) →
      DfsInv services st →
      DfsInv services st2 ∧ st.result <+: st2.result ∧ (∀ n ∈ todo, n ∈ st2.result) := by
  intro fuel
  induction fuel with
  | zero => intro todo st st2 h; cases h
  | succ f ih =>
    intro todo st st2 h hInv
    cases todo with
    | nil =>
      simp only [visitMany, Option.some.injEq, Except.ok.injEq] at h
      rw [← h]
      exact ⟨hInv, List.prefix_refl _, fun n hn => absurd hn (List.not_mem_nil n)⟩
    | cons node rest =>
      simp only [visitMany] at h
      by_cases hv : node ∈ st.visited
      · rw [if_pos hv] at h
        obtain ⟨hInv2, hpre, hcompl⟩ := ih rest st st2 h hInv
        refine ⟨hInv2, hpre, ?_⟩
        intro n hn
        rcases List.mem_cons.mp hn with hn | hn
        · subst hn
          exact hpre.sublist.subset ((hInv.2.1 n).mp hv)
        · exact hcompl n hn
      · rw [if_neg hv] at h
        by_cases ht : node ∈ st.temp
        · rw [if_pos ht] at h
          cases h
        · rw [if_neg ht] at h
          cases hch : visitMany services f (depsOf services node)
              { st with temp := node :: st.temp } with
          | none => rw [hch] at h; cases h
          | some r =>
            rw [hch] at h
            cases r with
            | error e => cases h
            | ok mid =>
              have hInv1 : DfsInv services { st with temp := node :: st.temp } := by
                refine ⟨hInv.1, hInv.2.1, ?_, hInv.2.2.2⟩
                intro n hn
                rcases List.mem_cons.mp hn with hn | hn
                · subst hn
                  intro hr
                  exact hv ((hInv.2.1 n).mpr hr)
                · exact hInv.2.2.1 n hn
              obtain ⟨hInvMid, hpreMid, hcomplMid⟩ :=
                ih (depsOf services node) { st with temp := node :: st.temp } mid hch hInv1
              have hshape := visitMany_state_shape services f (depsOf services node)
                { st with temp := node :: st.temp } mid hch
              have hnodeTemp : node ∈ mid.temp := by
                rw [hshape.1]
                exact List.mem_cons_self node st.temp
              have hnodeRes : node ∉ mid.result := hInvMid.2.2.1 node hnodeTemp
              have hInv3 : DfsInv services
                  { visited := node :: mid.visited,
                    temp := mid.temp.erase node,
                    result := mid.result ++ [node] } := by
                refine ⟨?_, ?_, ?_, ?_⟩
                · exact List.Nodup.append hInvMid.1 (List.nodup_singleton node)
                    (fun a ha hb => hnodeRes ((List.mem_singleton.mp hb) ▸ ha))
                · intro n
                  simp only [List.mem_cons, List.mem_append, List.mem_singleton,
                    hInvMid.2.1 n]
                  tauto
                · intro n hn
                  have hn2 : n ∈ mid.temp := List.mem_of_mem_erase hn
                  have hsz : n ∈ st.temp := by
                    rw [hshape.1] at hn
                    rwa [List.erase_cons_head node st.temp] at hn
                  have hne : n ≠ node := fun he => ht (he ▸ hsz)
                  simp only [List.mem_append, List.mem_singleton]
                  rintro (hr | hr)
                  · exact hInvMid.2.2.1 n hn2 hr
                  · exact hne hr
                · intro n hn d hd
                  rcases List.mem_append.mp hn with hn | hn
                  · exact (hInvMid.2.2.2 n hn d hd).trans
                      (List.sublist_append_left mid.result [node])
                  · rw [List.mem_singleton.mp hn]
                    rw [List.mem_singleton.mp hn] at hd
                    have hdmem : d ∈ mid.result := hcomplMid d hd
                    exact List.Sublist.append (List.singleton_sublist.mpr hdmem)
                      (List.Sublist.refl [node])
              obtain ⟨hInv2, hpre3, hcompl3⟩ := ih rest
                { visited := node :: mid.visited,
                  temp := mid.temp.erase node,
                  result := mid.result ++ [node] } st2 h hInv3
              refine ⟨hInv2, ?_, ?_⟩
              · exact hpreMid.trans ((List.prefix_append mid.result [node]).trans hpre3)
              · intro n hn
                rcases List.mem_cons.mp hn with hn | hn
                · subst hn
                  exact hpre3.sublist.subset
                    (List.mem_append_right mid.result (List.mem_singleton.mpr rfl))
                · exact hcompl3 n hn

/-- Helper: when the walk reports a cycle error, the message names a
node on the current search path, and that node is reachable from itself
through at least one dependency edge. -/
theorem visitMany_error_cycle (services : List (String × List String)) :
    ∀ fuel todo st msg,
      visitMany services fuel todo st = some (Except.error msg) →
      (∀ t ∈ st.temp, ∀ n ∈ todo, Relation.TransGen (depStep services) t n) →
      ∃ n, msg = cycleMsg n ∧ Relation.TransGen (depStep services) n n := by
  intro fuel
  induction fuel with
  | zero => intro todo st msg h _; cases h
  | succ f ih =>
    intro todo st msg h hpath
    cases todo with
    | nil =>
      simp only [visitMany] at h
      exact absurd h (by simp)
    | cons node rest =>
      simp only [visitMany] at h
      by_cases hv : node ∈ st.visited
      · rw [if_pos hv] at h
        exact ih rest st msg h
          (fun t ht n hn => hpath t ht n (List.mem_cons_of_mem node hn))
      · rw [if_neg hv] at h
        by_cases ht : node ∈ st.temp
        · rw [if_pos ht] at h
          simp only [Option.some.injEq, Except.error.injEq] at h
          exact ⟨node, h.symm,
            hpath node ht node (List.mem_cons_self node rest)⟩
        · rw [if_neg ht] at h
          cases hch : visitMany services f (depsOf services node)
              { st with temp := node :: st.temp } with
          | none => rw [hch] at h; cases h
          | some r =>
            rw [hch] at h
            cases r with
            | error e =>
              simp only [Option.some.injEq, Except.error.injEq] at h
              rw [← h]
              refine ih (depsOf services node) { st with temp := node :: st.temp }
                e hch ?_
              intro t htemp d hd
              rcases List.mem_cons.mp htemp with htemp | htemp
              · subst htemp
                exact Relation.TransGen.single hd
              · exact Relation.TransGen.tail
                  (hpath t htemp node (List.mem_cons_self node rest)) hd
            | ok mid =>
              have hshape := visitMany_state_shape services f (depsOf services node)
                { st with temp := node :: st.temp } mid hch
              refine ih rest
                { visited := node :: mid.visited,
                  temp := mid.temp.erase node,
                  result := mid.result ++ [node] } msg h ?_
              intro t htemp n hn
              have htemp2 : t ∈ st.temp := by
                rw [hshape.1, List.erase_cons_head node st.temp] at htemp
                exact htemp
              exact hpath t htemp2 n (List.mem_cons_of_mem node hn)

/-- Helper: with fuel above the computed requirement the walk never runs
out of fuel: it always returns some outcome, as the terminating Rust
recursion does. -/
theorem visitMany_progress (services : List (String × List String)) :
    ∀ fuel todo st,
      (∀ n ∈ todo, n ∈ graphNodes services) →
      dfsFuelNeed services todo st < fuel →
      visitMany services fuel todo st ≠ none := by
  intro fuel
  induction fuel with
  | zero =>
    intro todo st _ hlt
    exact absurd hlt (Nat.not_lt_zero _)
  | succ f ih =>
    intro todo st hpre hlt
    cases todo with
    | nil => simp [visitMany]
    | cons node rest =>
      simp only [visitMany]
      by_cases hv : node ∈ st.visited
      · rw [if_pos hv]
        apply ih rest st (fun n hn => hpre n (List.mem_cons_of_mem node hn))
        unfold dfsFuelNeed at hlt ⊢
        simp only [List.length_cons] at hlt
        omega
      · rw [if_neg hv]
        by_cases ht : node ∈ st.temp
        · rw [if_pos ht]
          simp
        · rw [if_neg ht]
          have hnode : node ∈ remSet services st := by
            unfold remSet
            rw [Finset.mem_filter]
            exact ⟨hpre node (List.mem_cons_self node rest), hv, ht⟩
          have hrpos : 1 ≤ (remSet services st).card :=
            Finset.card_pos.mpr ⟨node, hnode⟩
          have hrem1 : remSet services { st with temp := node :: st.temp } =
              (remSet services st).erase node := by
            unfold remSet
            ext n
            simp only [Finset.mem_filter, Finset.mem_erase, List.mem_cons]
            tauto
          have hxy : (maxDepsLen services + 1) * (remSet services st).card =
              (maxDepsLen services + 1) * ((remSet services st).card - 1) +
                (maxDepsLen services + 1) := by
            calc (maxDepsLen services + 1) * (remSet services st).card
                = (maxDepsLen services + 1) * (((remSet services st).card - 1) + 1) := by
                  rw [Nat.sub_add_cancel hrpos]
              _ = (maxDepsLen services + 1) * ((remSet services st).card - 1) +
                    (maxDepsLen services + 1) := by ring
          have hdlen := depsOf_length_le services node
          have hchne : visitMany services f (depsOf services node)
              { st with temp := node :: st.temp } ≠ none := by
            apply ih _ _ (fun d hd => depsOf_subset_graphNodes services node d hd)
            unfold dfsFuelNeed at hlt ⊢
            rw [hrem1, Finset.card_erase_of_mem hnode]
            simp only [List.length_cons] at hlt
            rw [hxy] at hlt
            omega
          cases hch : visitMany services f (depsOf services node)
              { st with temp := node :: st.temp } with
          | none => exact absurd hch hchne
          | some r =>
            cases r with
            | error e => simp
            | ok mid =>
              have hshape := visitMany_state_shape services f (depsOf services node)
                { st with temp := node :: st.temp } mid hch
              show visitMany services f rest
                { visited := node :: mid.visited, temp := mid.temp.erase node,
                  result := mid.result ++ [node] } ≠ none
              apply ih rest _ (fun n hn => hpre n (List.mem_cons_of_mem node hn))
              have hsub : remSet services
                  { visited := node :: mid.visited,
                    temp := mid.temp.erase node,
                    result := mid.result ++ [node] } ⊆
                  (remSet services st).erase node := by
                intro n hn
                unfold remSet at hn
                rw [Finset.mem_filter] at hn
                obtain ⟨hU, hnv, hnt⟩ := hn
                simp only [List.mem_cons, not_or] at hnv
                have htemp3 : n ∉ st.temp := by
                  rw [hshape.1, List.erase_cons_head node st.temp] at hnt
                  exact hnt
                rw [Finset.mem_erase]
                refine ⟨hnv.1, ?_⟩
                unfold remSet
                rw [Finset.mem_filter]
                exact ⟨hU, fun hvis => hnv.2 (hshape.2 n hvis), htemp3⟩
              have hcard3 := Finset.card_le_card hsub
              rw [Finset.card_erase_of_mem hnode] at hcard3
              unfold dfsFuelNeed at hlt ⊢
              simp only [List.length_cons] at hlt
              rw [hxy] at hlt
              have hmul := Nat.mul_le_mul_left (maxDepsLen services + 1) hcard3
              omega

/-- C6: topological_sort always returns an outcome; a returned list has
no duplicates, contains every key of the dependency map, and places
each listed dependency of a node strictly before that node (so nodes
with no dependencies precede everything that depends on them); a
returned error is the cycle message naming a node that is reachable
from itself through the dependency edges; hence when no node is
reachable from itself the sort returns such an ordered list. -/
theorem C6_topological_sort_spec (services : List (String × List String)) :
    (∃ r, topological_sort services = some r) ∧
    (∀ l, topological_sort services = some (Except.ok l) →
      l.Nodup ∧
      (∀ k ∈ services.map Prod.fst, k ∈ l) ∧
      (∀ k ∈ services.map Prod.fst, ∀ d ∈ depsOf services k, [d, k].Sublist l)) ∧
    (∀ msg, topological_sort services = some (Except.error msg) →
      ∃ n, msg = cycleMsg n ∧ Relation.TransGen (depStep services) n n) ∧
    ((¬ ∃ n, Relation.TransGen (depStep services) n n) →
      ∃ l, topological_sort services = some (Except.ok l)) := by
  have hInit : DfsInv services { visited := [], temp := [], result := [] } := by
    refine ⟨List.nodup_nil, ?_, ?_, ?_⟩ <;> simp
  have hlt : dfsFuelNeed services (services.map Prod.fst)
      { visited := [], temp := [], result := [] } < graphFuel services := by
    have hfilter : remSet services { visited := [], temp := [], result := [] } =
        graphNodes services := by
      unfold remSet
      apply Finset.filter_true_of_mem
      intro n _
      simp
    unfold dfsFuelNeed graphFuel
    rw [hfilter, List.length_map]
    omega
  have hne := visitMany_progress services (graphFuel services)
    (services.map Prod.fst) { visited := [], temp := [], result := [] }
    (keys_subset_graphNodes services) hlt
  have htot : ∃ r, topological_sort services = some r := by
    unfold topological_sort
    cases hrun : visitMany services (graphFuel services) (services.map Prod.fst)
        { visited := [], temp := [], result := [] } with
    | none => exact absurd hrun hne
    | some r =>
      cases r with
      | error e => exact ⟨Except.error e, rfl⟩
      | ok st => exact ⟨Except.ok st.result, rfl⟩
  have hok : ∀ l, topological_sort services = some (Except.ok l) →
      l.Nodup ∧
      (∀ k ∈ services.map Prod.fst, k ∈ l) ∧
      (∀ k ∈ services.map Prod.fst, ∀ d ∈ depsOf services k, [d, k].Sublist l) := by
    intro l hl
    unfold topological_sort at hl
    cases hrun : visitMany services (graphFuel services) (services.map Prod.fst)
        { visited := [], temp := [], result := [] } with
    | none => rw [hrun] at hl; cases hl
    | some r =>
      rw [hrun] at hl
      cases r with
      | error e => cases hl
      | ok st =>
        simp only [Option.some.injEq, Except.ok.injEq] at hl
        subst hl
        obtain ⟨hInv2, _, hcompl⟩ :=
          visitMany_ok_inv services (graphFuel services) (services.map Prod.fst)
            { visited := [], temp := [], result := [] } st hrun hInit
        exact ⟨hInv2.1, hcompl,
          fun k hk d hd => hInv2.2.2.2 k (hcompl k hk) d hd⟩
  have herr : ∀ msg, topological_sort services = some (Except.error msg) →
      ∃ n, msg = cycleMsg n ∧ Relation.TransGen (depStep services) n n := by
    intro msg hmsg
    unfold topological_sort at hmsg
    cases hrun : visitMany services (graphFuel services) (services.map Prod.fst)
        { visited := [], temp := [], result := [] } with
    | none => rw [hrun] at hmsg; cases hmsg
    | some r =>
      rw [hrun] at hmsg
      cases r with
      | error e =>
        simp only [Option.some.injEq, Except.error.injEq] at hmsg
        subst hmsg
        exact visitMany_error_cycle services (graphFuel services)
          (services.map Prod.fst) { visited := [], temp := [], result := [] } e hrun
          (fun t ht => absurd ht (List.not_mem_nil t))
      | ok st => cases hmsg
  refine ⟨htot, hok, herr, ?_⟩
  intro hacyc
  obtain ⟨r, hr⟩ := htot
  cases r with
  | error msg =>
    obtain ⟨n, _, hcyc⟩ := herr msg hr
    exact absurd ⟨n, hcyc⟩ hacyc
  | ok l => exact ⟨l, hr⟩

/-- C6 witness: the contract applied to the acyclic two-node map (api
depends on db), whose sort is the list [db, api] with db before api,
and to the two-node cycle a -> b -> a, whose sort reports the cycle
error at a self-reachable node. -/
theorem C6_topological_sort_spec_witness :
    (["db", "api"] : List String).Nodup ∧
    "api" ∈ (["db", "api"] : List String) ∧
    (["db", "api"] : List String).Sublist ["db", "api"] ∧
    (∃ n, cycleMsg "a" = cycleMsg n ∧
      Relation.TransGen (depStep [("a", ["b"]), ("b", ["a"])]) n n) := by
  have h1 := (C6_topological_sort_spec [("api", ["db"]), ("db", [])]).2.1
    ["db", "api"] rfl
  have h2 := (C6_topological_sort_spec [("a", ["b"]), ("b", ["a"])]).2.2.1
    (cycleMsg "a") rfl
  exact ⟨h1.1, h1.2.1 "api" (by decide), h1.2.2 "api" (by decide) "db" (by decide), h2⟩
